import Mathlib

/-!
Verification development for the imodeljs repository snapshot: the EC schema
metadata engine (`ECSchema.fromObject`, `getClass`, entity classes, mixins,
base classes, modifiers), the `IModelApp` application lifecycle, the frontend
RPC bootstrap, and the `SampleAppReducer` Redux reducer.

The Metadata/Schema and Metadata/Class sources are not part of the snapshot
(only their tests are), so the schema engine is modelled from the spec's
description — a typed object-graph deserializer with two-pass reference
resolution — and checked against the behaviour the deserialization tests
demand.  `IModelApp` and the ui-test-app frontend are embedded directly from
their sources.
-/

/-! ## EC schema metadata engine -/

/-- Modelled from the spec: the `ECClassModifier` enumeration referenced by the
schema engine and its tests (the modifier string "None" maps to
`ECClassModifier.none`); its source (ECObjects) is not in the snapshot. -/
inductive ECClassModifier where
  | none
  | abstract
  | sealed
  deriving DecidableEq, Repr

/-- The kind of a schema child: an entity class or a mixin. -/
inductive SchemaChildType where
  | entityClass
  | mixin
  deriving DecidableEq, Repr

/-- Modelled from the spec: the "mixin" attribute of an EntityClass schema
child, which may be absent, a single mixin name, or an array of mixin names. -/
inductive MixinAttr where
  | none
  | single (name : String)
  | array (names : List String)
  deriving DecidableEq, Repr

/-- Modelled from the spec: one child of the schema JSON's `children` object,
tagged by its `schemaChildType`.  Entity classes carry optional label,
description and modifier attributes, a mixin attribute and an optional base
class name; mixins carry their applies-to constraint. -/
inductive SchemaChildJson where
  | entityClass (label description modifier : Option String)
      (mixin : MixinAttr) (baseClass : Option String)
  | mixin (appliesTo : String)
  deriving DecidableEq, Repr

/-- Modelled from the spec: the schema JSON fed to `ECSchema.fromObject`.  The
`children` object is kept as an association list in JSON order, since forward
references make the order observable. -/
structure SchemaJson where
  name : String
  version : String
  children : List (String × SchemaChildJson)
  deriving DecidableEq, Repr

/-- A reference from one schema child to another: either still the raw name
from the JSON, or resolved to the object stored at `index` in the schema's
class table (object identity in the deserialized graph is position in the
table). -/
inductive ClassRef where
  | byName (name : String)
  | byObject (index : Nat)
  deriving DecidableEq, Repr

/-- Modelled from the spec: a deserialized EC class (entity class or mixin) in
the schema's object graph; its Metadata/Class source is not in the snapshot. -/
structure ECClass where
  name : String
  childType : SchemaChildType
  label : Option String := Option.none
  description : Option String := Option.none
  modifier : Option ECClassModifier := Option.none
  appliesTo : Option String := Option.none
  mixins : List ClassRef := []
  baseClass : Option ClassRef := Option.none
  deriving DecidableEq, Repr

/-- Modelled from the spec: a deserialized EC schema, holding its classes in
children order. -/
structure ECSchema where
  name : String
  version : String
  classes : List ECClass
  deriving DecidableEq, Repr

/-- The names listed by a mixin attribute. -/
def mixinNames : MixinAttr → List String
  | MixinAttr.none => []
  | MixinAttr.single n => [n]
  | MixinAttr.array ns => ns

/-- Parse a modifier attribute string. -/
def parseModifier : String → Option ECClassModifier
  | "None" => some ECClassModifier.none
  | "Abstract" => some ECClassModifier.abstract
  | "Sealed" => some ECClassModifier.sealed
  | _ => Option.none

/-- Parse an optional modifier attribute; an unrecognised string is an error. -/
def parseModifierAttr : Option String → Except String (Option ECClassModifier)
  | Option.none => Except.ok Option.none
  | some m =>
    match parseModifier m with
    | some mm => Except.ok (some mm)
    | Option.none => Except.error ("invalid modifier: " ++ m)

/-- Map a fallible function over a list, stopping at the first error. -/
def mapExcept {α β : Type} (f : α → Except String β) : List α → Except String (List β)
  | [] => Except.ok []
  | a :: as =>
    match f a, mapExcept f as with
    | Except.ok b, Except.ok bs => Except.ok (b :: bs)
    | Except.error e, _ => Except.error e
    | Except.ok _, Except.error e => Except.error e

/-- Modelled from the spec: pass one of deserialization creates a class object
for one schema child, keeping cross-child references by name. -/
def createClass (key : String) : SchemaChildJson → Except String ECClass
  | SchemaChildJson.entityClass label description modifier mixinAttr baseAttr =>
    match parseModifierAttr modifier with
    | Except.error e => Except.error e
    | Except.ok mod =>
      Except.ok { name := key, childType := SchemaChildType.entityClass,
                  label := label, description := description, modifier := mod,
                  appliesTo := Option.none,
                  mixins := (mixinNames mixinAttr).map ClassRef.byName,
                  baseClass := baseAttr.map ClassRef.byName }
  | SchemaChildJson.mixin appliesTo =>
    Except.ok { name := key, childType := SchemaChildType.mixin,
                appliesTo := some appliesTo }

/-- Index of the first class with the given name. -/
def findClassIndex : List ECClass → String → Option Nat
  | [], _ => Option.none
  | c :: rest, nm =>
    if c.name = nm then some 0 else (findClassIndex rest nm).map (· + 1)

/-- First class with the given name. -/
def findClass : List ECClass → String → Option ECClass
  | [], _ => Option.none
  | c :: rest, nm => if c.name = nm then some c else findClass rest nm

/-- Resolve one reference against the class table built by pass one. -/
def resolveRef (classes : List ECClass) : ClassRef → Except String ClassRef
  | ClassRef.byName nm =>
    match findClassIndex classes nm with
    | some i => Except.ok (ClassRef.byObject i)
    | Option.none => Except.error ("unable to locate schema child " ++ nm)
  | ClassRef.byObject i => Except.ok (ClassRef.byObject i)

/-- Resolve an optional base-class reference. -/
def resolveBase (classes : List ECClass) : Option ClassRef → Except String (Option ClassRef)
  | Option.none => Except.ok Option.none
  | some r =>
    match resolveRef classes r with
    | Except.ok r2 => Except.ok (some r2)
    | Except.error e => Except.error e

/-- Modelled from the spec: pass two of deserialization rewrites every by-name
reference of one class to the object it denotes. -/
def resolveClass (classes : List ECClass) (c : ECClass) : Except String ECClass :=
  match mapExcept (resolveRef classes) c.mixins, resolveBase classes c.baseClass with
  | Except.ok ms, Except.ok b => Except.ok { c with mixins := ms, baseClass := b }
  | Except.error e, _ => Except.error e
  | Except.ok _, Except.error e => Except.error e

/-- Modelled from the spec: `ECSchema.fromObject`, the typed object-graph
deserializer, as two passes — create every child first, then resolve every
reference, so a child may refer to a child that appears later in the JSON. -/
def ECSchema.fromObject (json : SchemaJson) : Except String ECSchema :=
  match mapExcept (fun kv => createClass kv.1 kv.2) json.children with
  | Except.error e => Except.error e
  | Except.ok pass1 =>
    match mapExcept (resolveClass pass1) pass1 with
    | Except.error e => Except.error e
    | Except.ok resolved =>
      Except.ok { name := json.name, version := json.version, classes := resolved }

/-- Look a class up by name: `ECSchema.getClass`. -/
def ECSchema.getClass (s : ECSchema) (nm : String) : Option ECClass :=
  findClass s.classes nm

/-- Dereference a resolved reference in the schema's object graph. -/
def ECSchema.derefRef (s : ECSchema) : ClassRef → Option ECClass
  | ClassRef.byObject i => s.classes.get? i
  | ClassRef.byName _ => Option.none

/-- The keys of the schema JSON's children object. -/
def SchemaJson.keys (json : SchemaJson) : List String :=
  json.children.map Prod.fst

/-- The names a schema child refers to by name. -/
def SchemaChildJson.refNames : SchemaChildJson → List String
  | SchemaChildJson.entityClass _ _ _ mixinAttr baseAttr =>
    mixinNames mixinAttr ++ baseAttr.toList
  | SchemaChildJson.mixin _ => []

/-- Does the modifier attribute of a schema child parse? -/
def SchemaChildJson.modifierOk : SchemaChildJson → Bool
  | SchemaChildJson.entityClass _ _ modifier _ _ =>
    match modifier with
    | Option.none => true
    | some m => (parseModifier m).isSome
  | SchemaChildJson.mixin _ => true

/-- A schema JSON is well formed when every child's modifier parses and every
name it refers to is a key of the children object. -/
def SchemaJson.wellFormed (json : SchemaJson) : Bool :=
  json.children.all fun kv =>
    kv.2.modifierOk && kv.2.refNames.all fun n => json.keys.contains n

/-! ## The deserialization tests' schema JSON (src/test/Schema/EntityClass.test.ts) -/

/-- The "succeed with fully defined" test schema. -/
def fullyDefinedTestJson : SchemaJson :=
  { name := "TestSchema", version := "1.2.3",
    children :=
      [("testEntityClass",
        SchemaChildJson.entityClass (some "Test Entity Class") (some "Used for testing")
          (some "None") MixinAttr.none Option.none)] }

/-- The "with mixin" test schema. -/
def mixinTestJson : SchemaJson :=
  { name := "TestSchema", version := "1.2.3",
    children :=
      [("testMixin", SchemaChildJson.mixin "testClass"),
       ("testClass",
        SchemaChildJson.entityClass Option.none Option.none Option.none
          (MixinAttr.single "testMixin") Option.none)] }

/-- The "with multiple mixins" test schema; its entity class lists
anotherMixin before that mixin is defined, a forward reference. -/
def multiMixinTestJson : SchemaJson :=
  { name := "TestSchema", version := "1.2.3",
    children :=
      [("testMixin", SchemaChildJson.mixin "testClass"),
       ("testClass",
        SchemaChildJson.entityClass Option.none Option.none Option.none
          (MixinAttr.array ["testMixin", "anotherMixin"]) Option.none),
       ("anotherMixin", SchemaChildJson.mixin "testClass")] }

/-- The "with base class" test schema. -/
def baseClassTestJson : SchemaJson :=
  { name := "TestSchema", version := "1.2.3",
    children :=
      [("baseClass",
        SchemaChildJson.entityClass Option.none Option.none Option.none
          MixinAttr.none Option.none),
       ("testClass",
        SchemaChildJson.entityClass Option.none Option.none Option.none
          MixinAttr.none (some "baseClass"))] }

/-! ## IModelApp (src/core/frontend/src/IModelApp.ts)

The service/manager classes live outside this snapshot; each is an opaque
carrier whose only observable is which instance was assigned. -/

/-- Opaque stand-in for the external `RenderSystem` service class. -/
structure RenderSystem where
  tag : String
  deriving DecidableEq, Repr

/-- Opaque stand-in for `ViewManager`. -/
structure ViewManager where
  tag : String
  deriving DecidableEq, Repr

/-- Opaque stand-in for `NotificationManager`. -/
structure NotificationManager where
  tag : String
  deriving DecidableEq, Repr

/-- Opaque stand-in for `ToolAdmin`. -/
structure ToolAdmin where
  tag : String
  deriving DecidableEq, Repr

/-- Opaque stand-in for `AccuDraw`. -/
structure AccuDraw where
  tag : String
  deriving DecidableEq, Repr

/-- Opaque stand-in for `AccuSnap`. -/
structure AccuSnap where
  tag : String
  deriving DecidableEq, Repr

/-- Opaque stand-in for `ElementLocateManager`. -/
structure ElementLocateManager where
  tag : String
  deriving DecidableEq, Repr

/-- Opaque stand-in for `TentativePoint`. -/
structure TentativePoint where
  tag : String
  deriving DecidableEq, Repr

/-- The localization system: the namespaces registered so far. -/
structure I18N where
  namespaces : List String
  deriving DecidableEq, Repr

/-- Register a localization namespace: `I18N.registerNamespace`. -/
def I18N.registerNamespace (i : I18N) (ns : String) : I18N :=
  { i with namespaces := i.namespaces ++ [ns] }

/-- The error statuses `IModelApp` throws with: `IModelStatus.AlreadyLoaded`
and `BentleyStatus.ERROR`. -/
inductive ErrStatus where
  | alreadyLoaded
  | error
  deriving DecidableEq, Repr

/-- An `IModelError`: a status-carrying exception. -/
structure IModelError where
  status : ErrStatus
  message : String
  deriving DecidableEq, Repr

/-- The static state of the `IModelApp` class: the initialized flag, the
deployment environment, and every service/manager static — each an `Option`
because in the source it is undefined until assigned. -/
structure IModelAppState where
  initialized : Bool := false
  renderSystem : Option RenderSystem := Option.none
  viewManager : Option ViewManager := Option.none
  notifications : Option NotificationManager := Option.none
  toolAdmin : Option ToolAdmin := Option.none
  accuDraw : Option AccuDraw := Option.none
  accuSnap : Option AccuSnap := Option.none
  locateManager : Option ElementLocateManager := Option.none
  tentativePoint : Option TentativePoint := Option.none
  i18n : Option I18N := Option.none
  toolModules : List String := []
  deploymentEnv : String := "QA"
  deriving DecidableEq, Repr

/-- The state `startup` builds before calling the subclass `onStartup` hook:
initialized set, deployment environment recorded, localization set up with the
system namespace plus CoreTools, and the core tool modules registered. -/
def IModelApp.startupPre (st : IModelAppState) (deploymentEnv : String) : IModelAppState :=
  { st with initialized := true, deploymentEnv := deploymentEnv,
            i18n := some (I18N.registerNamespace { namespaces := ["iModelJs"] } "CoreTools"),
            toolModules := st.toolModules ++ ["SelectTool", "IdleTool", "ViewTool"] }

/-- After `onStartup`, each service the hook did not allocate is given its
default implementation; the render system is supplied only when display
capabilities were requested and none is present.  The source performs these
conditional assignments in sequence, but each one reads and writes only its
own field, so they are rendered as one parallel record update. -/
def IModelApp.startupFill (wantDisplayCapabilities : Bool)
    (supplyRenderSystem : Unit → Option RenderSystem) (s : IModelAppState) : IModelAppState :=
  { s with
    renderSystem := if s.renderSystem.isNone && wantDisplayCapabilities then
      supplyRenderSystem () else s.renderSystem,
    viewManager := if s.viewManager.isNone then
      some { tag := "ViewManager" } else s.viewManager,
    notifications := if s.notifications.isNone then
      some { tag := "NotificationManager" } else s.notifications,
    toolAdmin := if s.toolAdmin.isNone then
      some { tag := "ToolAdmin" } else s.toolAdmin,
    accuDraw := if s.accuDraw.isNone then
      some { tag := "AccuDraw" } else s.accuDraw,
    accuSnap := if s.accuSnap.isNone then
      some { tag := "AccuSnap" } else s.accuSnap,
    locateManager := if s.locateManager.isNone then
      some { tag := "ElementLocateManager" } else s.locateManager,
    tentativePoint := if s.tentativePoint.isNone then
      some { tag := "TentativePoint" } else s.tentativePoint }

/-- The ui-test-app frontend's `SampleAppIModelApp.onStartup`: assigns the app's
notification manager and AccuSnap before the defaults are filled in, and
registers the SampleApp localization namespace (the Redux store creation lives
outside `IModelAppState`). -/
def sampleAppOnStartup (s : IModelAppState) : IModelAppState :=
  { s with notifications := some { tag := "AppNotificationManager" },
           accuSnap := some { tag := "SampleAppAccuSnap" },
           i18n := s.i18n.map fun i => i.registerNamespace "SampleApp" }

/-- The `IModelApp.startup` method: throws `IModelError` with `AlreadyLoaded` when called
while initialized; otherwise initializes, runs the subclass `onStartup` hook,
and fills in every service the hook did not assign. -/
def IModelApp.startup (onStartup : IModelAppState → IModelAppState)
    (supplyRenderSystem : Unit → Option RenderSystem)
    (st : IModelAppState) (deploymentEnv : String) (wantDisplayCapabilities : Bool) :
    Except IModelError IModelAppState :=
  if st.initialized then
    Except.error { status := ErrStatus.alreadyLoaded,
                   message := "startup may only be called once" }
  else
    Except.ok (IModelApp.startupFill wantDisplayCapabilities supplyRenderSystem
      (onStartup (IModelApp.startupPre st deploymentEnv)))

/-- The static state after a call of `startup`: a throw happens before any
assignment, so it leaves the statics as they were. -/
def IModelApp.startupState (onStartup : IModelAppState → IModelAppState)
    (supplyRenderSystem : Unit → Option RenderSystem)
    (st : IModelAppState) (deploymentEnv : String) (wantDisplayCapabilities : Bool) :
    IModelAppState :=
  match IModelApp.startup onStartup supplyRenderSystem st deploymentEnv
      wantDisplayCapabilities with
  | Except.ok s => s
  | Except.error _ => st

/-- Whether a render system is present: `IModelApp.hasRenderSystem`. -/
def IModelApp.hasRenderSystem (st : IModelAppState) : Bool :=
  st.renderSystem.isSome

/-- The `IModelApp.renderSystem` getter: throws `IModelError` when display
capabilities are unavailable. -/
def IModelApp.renderSystemGet (st : IModelAppState) : Except IModelError RenderSystem :=
  match st.renderSystem with
  | Option.none =>
    Except.error { status := ErrStatus.error, message := "Display capabilities unavailable" }
  | some r => Except.ok r

/-- The `IModelApp.shutdown` method: drops the render system and clears the initialized
flag. -/
def IModelApp.shutdown (st : IModelAppState) : IModelAppState :=
  { st with renderSystem := Option.none, initialized := false }

/-! ## Frontend RPC bootstrap (src/test-apps/ui-test-app/src/frontend/index.tsx) -/

/-- An `IModelToken`, as constructed with four string arguments. -/
structure IModelToken where
  iModelId : String
  contextId : String
  changeSetId : String
  openMode : String
  deriving DecidableEq, Repr

/-- An RPC request (opaque). -/
structure RpcRequest where
  id : Nat
  deriving DecidableEq, Repr

/-- One RPC operation of an interface, with its token policy. -/
structure RpcOperation where
  operationName : String
  policyToken : Option (RpcRequest → IModelToken)

/-- One registered RPC interface with its operations. -/
structure RpcInterface where
  interfaceName : String
  operations : List RpcOperation

/-- The RPC transport the client is initialized over. -/
inductive RpcTransport where
  | electron
  | bentleyCloud
  deriving DecidableEq, Repr

/-- An RPC client configuration: the chosen transport and the registered
interfaces. -/
structure RpcConfiguration where
  transport : RpcTransport
  interfaces : List RpcInterface

/-- A freshly registered interface: its operations carry no token policy yet.
`opsOf` names the operations each interface definition declares. -/
def freshInterface (opsOf : String → List String) (n : String) : RpcInterface :=
  { interfaceName := n,
    operations := (opsOf n).map fun o => { operationName := o, policyToken := Option.none } }

/-- Modelled from the spec: `ElectronRpcManager.initializeClient` (its
imodeljs-common source is not in the snapshot) initializes the RPC client over
the Electron transport with the given interfaces registered. -/
def ElectronRpcManager.initializeClient (opsOf : String → List String)
    (interfaceNames : List String) : RpcConfiguration :=
  { transport := RpcTransport.electron,
    interfaces := interfaceNames.map (freshInterface opsOf) }

/-- Modelled from the spec: `BentleyCloudRpcManager.initializeClient` (its
imodeljs-common source is not in the snapshot) initializes the RPC client over
the Bentley Cloud transport with the given interfaces registered; `info` is
the application title and version. -/
def BentleyCloudRpcManager.initializeClient (_info : String × String)
    (opsOf : String → List String) (interfaceNames : List String) : RpcConfiguration :=
  { transport := RpcTransport.bentleyCloud,
    interfaces := interfaceNames.map (freshInterface opsOf) }

/-- The interfaces the frontend registers: IModelTileRpcInterface and
IModelReadRpcInterface. -/
def rpcInterfaceNames : List String :=
  ["IModelTileRpcInterface", "IModelReadRpcInterface"]

/-- The token every operation's policy supplies:
`new IModelToken("test", "test", "test", "test")`. -/
def testIModelToken : IModelToken :=
  { iModelId := "test", contextId := "test", changeSetId := "test", openMode := "test" }

/-- The loop over `rpcConfiguration.interfaces()` assigning every operation's
token policy. -/
def assignTokenPolicies (cfg : RpcConfiguration) : RpcConfiguration :=
  { cfg with interfaces := cfg.interfaces.map fun i =>
      { i with operations := i.operations.map fun op =>
          { op with policyToken := some fun _request => testIModelToken } } }

/-- The frontend RPC bootstrap: choose the transport by
`ElectronRpcConfiguration.isElectron`, register the two interfaces, then give
every operation of every registered interface its token policy. -/
def frontendRpcBootstrap (isElectron : Bool) (opsOf : String → List String) : RpcConfiguration :=
  let rpcConfiguration :=
    if isElectron then ElectronRpcManager.initializeClient opsOf rpcInterfaceNames
    else BentleyCloudRpcManager.initializeClient ("ui-test-app", "v1.0") opsOf rpcInterfaceNames
  assignTokenPolicies rpcConfiguration

/-! ## SampleApp Redux state (src/test-apps/ui-test-app/src/frontend/index.tsx) -/

/-- Opaque stand-in for an `IModelConnection`. -/
structure IModelConnection where
  id : Nat
  deriving DecidableEq, Repr

/-- The `SampleAppState` Redux slice: both fields optional in the source. -/
structure SampleAppState where
  backstageVisible : Option Bool := Option.none
  currentIModelConnection : Option IModelConnection := Option.none
  deriving DecidableEq, Repr

/-- The reducer's initial state: the backstage hidden. -/
def initialState : SampleAppState :=
  { backstageVisible := some false }

/-- A dispatched action: its `type` string and, when present, the
`iModelConnection` field of its payload. -/
structure SampleAppAction where
  actionType : String
  payload : Option IModelConnection := Option.none
  deriving DecidableEq, Repr

/-- The `SampleAppReducer` function: the switch on `action.type`, falling through to the
input state for any other action type. -/
def SampleAppReducer (state : SampleAppState) (action : SampleAppAction) : SampleAppState :=
  if action.actionType = "SampleApp:BACKSTAGESHOW" then
    { state with backstageVisible := some true }
  else if action.actionType = "SampleApp:BACKSTAGEHIDE" then
    { state with backstageVisible := some false }
  else if action.actionType = "SampleApp:SETIMODELCONNECTION" then
    { state with currentIModelConnection := action.payload }
  else
    state

/-! ## Lemmas about `mapExcept` and list correspondences -/

/-- A successful `mapExcept` gives a pointwise correspondence. -/
theorem mapExcept_ok_forall2 {α β : Type} (f : α → Except String β) :
    ∀ {l : List α} {l' : List β}, mapExcept f l = Except.ok l' →
      List.Forall₂ (fun a b => f a = Except.ok b) l l'
  | [], l', h => by
    rw [mapExcept] at h
    cases h
    exact List.Forall₂.nil
  | a :: as, l', h => by
    rw [mapExcept] at h
    cases hfa : f a with
    | error e => simp [hfa] at h
    | ok b =>
      cases has : mapExcept f as with
      | error e => simp [hfa, has] at h
      | ok bs =>
        simp only [hfa, has] at h
        cases h
        exact List.Forall₂.cons hfa (mapExcept_ok_forall2 f has)

/-- Pointwise success makes `mapExcept` succeed. -/
theorem forall2_mapExcept_ok {α β : Type} {f : α → Except String β} :
    ∀ {l : List α} {l' : List β},
      List.Forall₂ (fun a b => f a = Except.ok b) l l' → mapExcept f l = Except.ok l'
  | _, _, List.Forall₂.nil => rfl
  | _, _, List.Forall₂.cons h hs => by
    rw [mapExcept, h, forall2_mapExcept_ok hs]

/-- A `mapExcept` succeeds as soon as `f` succeeds on every element. -/
theorem mapExcept_ok_of_forall {α β : Type} {f : α → Except String β} :
    ∀ {l : List α}, (∀ a ∈ l, ∃ b, f a = Except.ok b) →
      ∃ l', mapExcept f l = Except.ok l'
  | [], _ => ⟨[], rfl⟩
  | a :: as, h => by
    obtain ⟨b, hb⟩ := h a (List.mem_cons_self a as)
    obtain ⟨bs, hbs⟩ := mapExcept_ok_of_forall fun x hx => h x (List.mem_cons_of_mem a hx)
    exact ⟨b :: bs, by rw [mapExcept, hb, hbs]⟩

/-- Transfer a pointwise correspondence along `get?`, left to right. -/
theorem forall2_get?_left {α β : Type} {R : α → β → Prop} :
    ∀ {l : List α} {l' : List β}, List.Forall₂ R l l' →
      ∀ {i : Nat} {a : α}, l.get? i = some a → ∃ b, l'.get? i = some b ∧ R a b
  | _, _, List.Forall₂.nil, i, a, ha => by simp at ha
  | _, _, List.Forall₂.cons h hs, 0, a, ha => by
    cases ha
    exact ⟨_, rfl, h⟩
  | _, _, List.Forall₂.cons h hs, i + 1, a, ha =>
    forall2_get?_left hs ha

/-- A pointwise correspondence whose relation determines a projection equates
the mapped lists. -/
theorem forall2_map_eq {α β γ : Type} {R : α → β → Prop} {f : α → γ} {g : β → γ} :
    ∀ {l : List α} {l' : List β}, List.Forall₂ R l l' →
      (∀ a b, R a b → g b = f a) → l'.map g = l.map f
  | _, _, List.Forall₂.nil, _ => rfl
  | _, _, List.Forall₂.cons h hs, hfg => by
    simp only [List.map_cons, hfg _ _ h, forall2_map_eq hs hfg]

/-- Membership transfers along a pointwise correspondence. -/
theorem forall2_mem_left {α β : Type} {R : α → β → Prop} :
    ∀ {l : List α} {l' : List β}, List.Forall₂ R l l' →
      ∀ {a : α}, a ∈ l → ∃ b, b ∈ l' ∧ R a b
  | _, _, List.Forall₂.cons h hs, a, ha => by
    rcases List.mem_cons.1 ha with rfl | ha2
    · exact ⟨_, List.mem_cons_self _ _, h⟩
    · obtain ⟨b, hb, hr⟩ := forall2_mem_left hs ha2
      exact ⟨b, List.mem_cons_of_mem _ hb, hr⟩

/-! ## Lemmas about class creation and lookup -/

/-- Anatomy of a successful `createClass` on an entity-class child. -/
theorem createClass_entity_elim {k : String} {lab desc mod : Option String}
    {mix : MixinAttr} {base : Option String} {c : ECClass}
    (h : createClass k (SchemaChildJson.entityClass lab desc mod mix base) = Except.ok c) :
    ∃ m, parseModifierAttr mod = Except.ok m ∧
      c = { name := k, childType := SchemaChildType.entityClass, label := lab,
            description := desc, modifier := m, appliesTo := Option.none,
            mixins := (mixinNames mix).map ClassRef.byName,
            baseClass := base.map ClassRef.byName } := by
  rw [createClass] at h
  cases hm : parseModifierAttr mod with
  | error e => simp [hm] at h
  | ok m =>
    simp only [hm] at h
    cases h
    exact ⟨m, rfl, rfl⟩

/-- Anatomy of `createClass` on a mixin child. -/
theorem createClass_mixin_elim {k ap : String} {c : ECClass}
    (h : createClass k (SchemaChildJson.mixin ap) = Except.ok c) :
    c = { name := k, childType := SchemaChildType.mixin, appliesTo := some ap } := by
  rw [createClass] at h
  cases h
  rfl

/-- A created class is named after its key. -/
theorem createClass_name {k : String} {ch : SchemaChildJson} {c : ECClass}
    (h : createClass k ch = Except.ok c) : c.name = k := by
  cases ch with
  | entityClass lab desc mod mix base =>
    obtain ⟨m, _, rfl⟩ := createClass_entity_elim h
    rfl
  | mixin ap =>
    rw [createClass_mixin_elim h]

/-- Creation succeeds exactly on children whose modifier parses. -/
theorem createClass_ok {k : String} {ch : SchemaChildJson}
    (h : ch.modifierOk = true) : ∃ c, createClass k ch = Except.ok c := by
  cases ch with
  | entityClass lab desc mod mix base =>
    cases mod with
    | none => exact ⟨_, rfl⟩
    | some m =>
      rw [SchemaChildJson.modifierOk] at h
      cases hm : parseModifier m with
      | none => rw [hm] at h; simp [Option.isSome] at h
      | some mm =>
        refine ⟨{ name := k, childType := SchemaChildType.entityClass, label := lab,
                  description := desc, modifier := some mm, appliesTo := Option.none,
                  mixins := (mixinNames mix).map ClassRef.byName,
                  baseClass := base.map ClassRef.byName }, ?_⟩
        rw [createClass, parseModifierAttr, hm]
  | mixin ap => exact ⟨_, rfl⟩

/-- Anatomy of a successful `resolveClass`. -/
theorem resolveClass_ok_elim {cs : List ECClass} {c c' : ECClass}
    (h : resolveClass cs c = Except.ok c') :
    ∃ ms b, mapExcept (resolveRef cs) c.mixins = Except.ok ms ∧
      resolveBase cs c.baseClass = Except.ok b ∧
      c' = { c with mixins := ms, baseClass := b } := by
  rw [resolveClass] at h
  cases hms : mapExcept (resolveRef cs) c.mixins with
  | error e => simp [hms] at h
  | ok ms =>
    cases hb : resolveBase cs c.baseClass with
    | error e => simp [hms, hb] at h
    | ok b =>
      simp only [hms, hb] at h
      cases h
      exact ⟨ms, b, rfl, rfl, rfl⟩

/-- Resolution keeps every attribute of a class other than its references. -/
theorem resolveClass_fields {cs : List ECClass} {c c' : ECClass}
    (h : resolveClass cs c = Except.ok c') :
    c'.name = c.name ∧ c'.childType = c.childType ∧ c'.label = c.label ∧
      c'.description = c.description ∧ c'.modifier = c.modifier ∧
      c'.appliesTo = c.appliesTo := by
  obtain ⟨ms, b, _, _, rfl⟩ := resolveClass_ok_elim h
  exact ⟨rfl, rfl, rfl, rfl, rfl, rfl⟩

/-- A class with no references is left unchanged by resolution. -/
theorem resolveClass_no_refs {cs : List ECClass} {c c' : ECClass}
    (hm : c.mixins = []) (hb : c.baseClass = Option.none)
    (h : resolveClass cs c = Except.ok c') : c' = c := by
  obtain ⟨ms, b, hms, hbs, rfl⟩ := resolveClass_ok_elim h
  rw [hm] at hms
  rw [hb] at hbs
  cases hms
  cases hbs
  rw [← hm, ← hb]

/-- Anatomy of a successful by-name `resolveRef`. -/
theorem resolveRef_byName_elim {cs : List ECClass} {nm : String} {r : ClassRef}
    (h : resolveRef cs (ClassRef.byName nm) = Except.ok r) :
    ∃ i, findClassIndex cs nm = some i ∧ r = ClassRef.byObject i := by
  rw [resolveRef] at h
  cases hf : findClassIndex cs nm with
  | none => simp [hf] at h
  | some i =>
    simp only [hf] at h
    cases h
    exact ⟨i, rfl, rfl⟩

/-- What `findClassIndex` finds is an index holding a class of the sought name. -/
theorem findClassIndex_get? {nm : String} :
    ∀ {cs : List ECClass} {i : Nat}, findClassIndex cs nm = some i →
      ∃ c, cs.get? i = some c ∧ c.name = nm
  | [], i, h => by simp [findClassIndex] at h
  | c :: rest, i, h => by
    rw [findClassIndex] at h
    by_cases hc : c.name = nm
    · rw [if_pos hc] at h
      cases h
      exact ⟨c, rfl, hc⟩
    · rw [if_neg hc] at h
      cases hf : findClassIndex rest nm with
      | none => rw [hf] at h; cases h
      | some j =>
        rw [hf] at h
        cases h
        obtain ⟨d, hd, hdn⟩ := findClassIndex_get? hf
        exact ⟨d, hd, hdn⟩

/-- Under distinct names, `findClassIndex` returns the index any class of
that name sits at. -/
theorem findClassIndex_eq_of_nodup {nm : String} :
    ∀ {cs : List ECClass}, (cs.map ECClass.name).Nodup →
      ∀ {j : Nat} {c : ECClass}, cs.get? j = some c → c.name = nm →
        findClassIndex cs nm = some j
  | [], _, j, c, hj, _ => by simp at hj
  | d :: rest, hn, 0, c, hj, hname => by
    cases hj
    rw [findClassIndex, if_pos hname]
  | d :: rest, hn, j + 1, c, hj, hname => by
    rw [List.map_cons, List.nodup_cons] at hn
    have hrec := findClassIndex_eq_of_nodup hn.2 hj hname
    have hdc : ¬ d.name = nm := by
      intro hd
      exact hn.1 (by
        rw [hd, ← hname]
        exact List.mem_map_of_mem ECClass.name (List.get?_mem hj))
    rw [findClassIndex, if_neg hdc, hrec]
    rfl

/-- Lookup by name returns the element at the found index. -/
theorem findClass_eq_get? {nm : String} :
    ∀ {cs : List ECClass} {i : Nat}, findClassIndex cs nm = some i →
      findClass cs nm = cs.get? i
  | [], i, h => by simp [findClassIndex] at h
  | c :: rest, i, h => by
    rw [findClassIndex] at h
    by_cases hc : c.name = nm
    · rw [if_pos hc] at h
      cases h
      rw [findClass, if_pos hc]
      rfl
    · rw [if_neg hc] at h
      cases hf : findClassIndex rest nm with
      | none => rw [hf] at h; cases h
      | some j =>
        rw [hf] at h
        cases h
        rw [findClass, if_neg hc]
        exact findClass_eq_get? hf

/-! ## Anatomy of `ECSchema.fromObject` -/

/-- A successful `fromObject` decomposes into its two passes. -/
theorem fromObject_ok_elim {json : SchemaJson} {s : ECSchema}
    (h : ECSchema.fromObject json = Except.ok s) :
    ∃ pass1, mapExcept (fun kv => createClass kv.1 kv.2) json.children = Except.ok pass1 ∧
      mapExcept (resolveClass pass1) pass1 = Except.ok s.classes ∧
      s.name = json.name ∧ s.version = json.version := by
  rw [ECSchema.fromObject] at h
  cases h1 : mapExcept (fun kv => createClass kv.1 kv.2) json.children with
  | error e => simp [h1] at h
  | ok pass1 =>
    simp only [h1] at h
    cases h2 : mapExcept (resolveClass pass1) pass1 with
    | error e => simp [h2] at h
    | ok resolved =>
      simp only [h2] at h
      cases h
      exact ⟨pass1, rfl, h2, rfl, rfl⟩

/-- Pass one names its classes by their JSON keys, in order. -/
theorem pass1_names {json : SchemaJson} {pass1 : List ECClass}
    (h1 : mapExcept (fun kv => createClass kv.1 kv.2) json.children = Except.ok pass1) :
    pass1.map ECClass.name = json.keys :=
  forall2_map_eq (mapExcept_ok_forall2 (fun kv => createClass kv.1 kv.2) h1)
    (fun _ _ hc => createClass_name hc)

/-- The deserialized classes are named by the JSON keys, in order. -/
theorem fromObject_classNames {json : SchemaJson} {s : ECSchema}
    (h : ECSchema.fromObject json = Except.ok s) :
    s.classes.map ECClass.name = json.keys := by
  obtain ⟨pass1, h1, h2, _, _⟩ := fromObject_ok_elim h
  have n2 : s.classes.map ECClass.name = pass1.map ECClass.name :=
    forall2_map_eq (mapExcept_ok_forall2 (resolveClass pass1) h2)
      (fun _ _ hc => (resolveClass_fields hc).1)
  rw [n2, pass1_names h1]

/-- Under distinct names, the class stored at an index is what `getClass`
returns for its name. -/
theorem getClass_get?_of_nodup {s : ECSchema}
    (hn : (s.classes.map ECClass.name).Nodup) {j : Nat} {c : ECClass}
    (hj : s.classes.get? j = some c) : s.getClass c.name = some c := by
  have hfi := findClassIndex_eq_of_nodup hn hj rfl
  rw [ECSchema.getClass, findClass_eq_get? hfi, hj]

/-- The child at index `j` of the JSON produces, at index `j` of the class
table, the resolved form of the class pass one builds for it. -/
theorem fromObject_child_elim {json : SchemaJson} {s : ECSchema} {pass1 : List ECClass}
    (h1 : mapExcept (fun kv => createClass kv.1 kv.2) json.children = Except.ok pass1)
    (h2 : mapExcept (resolveClass pass1) pass1 = Except.ok s.classes)
    {j : Nat} {k : String} {ch : SchemaChildJson}
    (hj : json.children.get? j = some (k, ch)) :
    ∃ raw cls,
      createClass k ch = Except.ok raw ∧
      pass1.get? j = some raw ∧
      resolveClass pass1 raw = Except.ok cls ∧
      s.classes.get? j = some cls := by
  obtain ⟨raw, hraw, hcr⟩ :=
    forall2_get?_left (mapExcept_ok_forall2 (fun kv => createClass kv.1 kv.2) h1) hj
  obtain ⟨cls, hcls, hrc⟩ :=
    forall2_get?_left (mapExcept_ok_forall2 (resolveClass pass1) h2) hraw
  exact ⟨raw, cls, hcr, hraw, hrc, hcls⟩

/-- Core two-pass resolution fact: under distinct keys, the name of the child
sitting at index `j` resolves (against the pass-one table) to index `j`, and
dereferencing `ClassRef.byObject j` in the finished schema yields exactly the
object `getClass` returns for that name. -/
theorem resolve_points_at_getClass {json : SchemaJson} {s : ECSchema} {pass1 : List ECClass}
    (hn : json.keys.Nodup)
    (h1 : mapExcept (fun kv => createClass kv.1 kv.2) json.children = Except.ok pass1)
    (h2 : mapExcept (resolveClass pass1) pass1 = Except.ok s.classes)
    {j : Nat} {nm : String} {ch : SchemaChildJson}
    (hj : json.children.get? j = some (nm, ch)) :
    findClassIndex pass1 nm = some j ∧
    ∃ mc, s.classes.get? j = some mc ∧ mc.name = nm ∧ s.getClass nm = some mc ∧
      s.derefRef (ClassRef.byObject j) = some mc := by
  obtain ⟨raw, cls, hcr, hraw, hrc, hcls⟩ := fromObject_child_elim h1 h2 hj
  have hrawname : raw.name = nm := createClass_name hcr
  have hclsname : cls.name = nm := by
    rw [(resolveClass_fields hrc).1, hrawname]
  have hn1 : (pass1.map ECClass.name).Nodup := by
    rw [pass1_names h1]; exact hn
  have hn2 : (s.classes.map ECClass.name).Nodup := by
    have n2 : s.classes.map ECClass.name = pass1.map ECClass.name :=
      forall2_map_eq (mapExcept_ok_forall2 (resolveClass pass1) h2)
        (fun _ _ hc => (resolveClass_fields hc).1)
    rw [n2, pass1_names h1]; exact hn
  refine ⟨findClassIndex_eq_of_nodup hn1 hraw hrawname, cls, hcls, hclsname, ?_, ?_⟩
  · have := getClass_get?_of_nodup hn2 hcls
    rw [hclsname] at this
    exact this
  · rw [ECSchema.derefRef, hcls]

/-! ## Deserialization succeeds on well-formed schema JSON -/

/-- Transfer a pointwise correspondence along `get?`, right to left. -/
theorem forall2_get?_right {α β : Type} {R : α → β → Prop} :
    ∀ {l : List α} {l' : List β}, List.Forall₂ R l l' →
      ∀ {i : Nat} {b : β}, l'.get? i = some b → ∃ a, l.get? i = some a ∧ R a b
  | _, _, List.Forall₂.nil, i, b, hb => by simp at hb
  | _, _, List.Forall₂.cons h hs, 0, b, hb => by
    cases hb
    exact ⟨_, rfl, h⟩
  | _, _, List.Forall₂.cons h hs, i + 1, b, hb =>
    forall2_get?_right hs hb

/-- Membership transfers right to left along a pointwise correspondence. -/
theorem forall2_mem_right {α β : Type} {R : α → β → Prop} :
    ∀ {l : List α} {l' : List β}, List.Forall₂ R l l' →
      ∀ {b : β}, b ∈ l' → ∃ a, a ∈ l ∧ R a b
  | _, _, List.Forall₂.cons h hs, b, hb => by
    rcases List.mem_cons.1 hb with rfl | hb2
    · exact ⟨_, List.mem_cons_self _ _, h⟩
    · obtain ⟨a, ha, hr⟩ := forall2_mem_right hs hb2
      exact ⟨a, List.mem_cons_of_mem _ ha, hr⟩

/-- Weaken a pointwise correspondence using left membership. -/
theorem forall2_imp_mem {α β : Type} {R S : α → β → Prop} :
    ∀ {l : List α} {l' : List β}, List.Forall₂ R l l' →
      (∀ a b, a ∈ l → R a b → S a b) → List.Forall₂ S l l'
  | _, _, List.Forall₂.nil, _ => List.Forall₂.nil
  | _, _, List.Forall₂.cons h hs, himp =>
    List.Forall₂.cons (himp _ _ (List.mem_cons_self _ _) h)
      (forall2_imp_mem hs fun a b ha => himp a b (List.mem_cons_of_mem _ ha))

/-- A `mapExcept` over a singleton list. -/
theorem mapExcept_singleton {α β : Type} (f : α → Except String β) {a : α} {l' : List β}
    (h : mapExcept f [a] = Except.ok l') : ∃ b, f a = Except.ok b ∧ l' = [b] := by
  cases mapExcept_ok_forall2 f h with
  | cons hb hs =>
    cases hs
    exact ⟨_, hb, rfl⟩

/-- Anatomy of a successful `resolveBase` on a present reference. -/
theorem resolveBase_some_elim {cs : List ECClass} {r : ClassRef} {b : Option ClassRef}
    (h : resolveBase cs (some r) = Except.ok b) :
    ∃ r2, resolveRef cs r = Except.ok r2 ∧ b = some r2 := by
  rw [resolveBase] at h
  cases hr : resolveRef cs r with
  | error e => simp [hr] at h
  | ok r2 =>
    simp only [hr] at h
    cases h
    exact ⟨r2, rfl, rfl⟩

/-- A name present in the table is found by `findClassIndex`. -/
theorem findClassIndex_isSome_of_mem {nm : String} :
    ∀ {cs : List ECClass}, nm ∈ cs.map ECClass.name →
      ∃ i, findClassIndex cs nm = some i
  | [], h => by simp at h
  | c :: rest, h => by
    by_cases hc : c.name = nm
    · exact ⟨0, by rw [findClassIndex, if_pos hc]⟩
    · rw [List.map_cons, List.mem_cons] at h
      rcases h with h | h
      · exact absurd h.symm hc
      · obtain ⟨i, hi⟩ := findClassIndex_isSome_of_mem h
        exact ⟨i + 1, by rw [findClassIndex, if_neg hc, hi]; rfl⟩

/-- Every reference a created class holds is a by-name reference to one of the
child's referenced names. -/
theorem createClass_refs {k : String} {ch : SchemaChildJson} {c : ECClass}
    (h : createClass k ch = Except.ok c) :
    (∀ r ∈ c.mixins, ∃ n, r = ClassRef.byName n ∧ n ∈ ch.refNames) ∧
    (∀ r, c.baseClass = some r → ∃ n, r = ClassRef.byName n ∧ n ∈ ch.refNames) := by
  cases ch with
  | entityClass lab desc modif mix base =>
    obtain ⟨m, _, rfl⟩ := createClass_entity_elim h
    constructor
    · intro r hr
      obtain ⟨n, hn, rfl⟩ := List.mem_map.1 hr
      exact ⟨n, rfl, by
        rw [SchemaChildJson.refNames]
        exact List.mem_append_left _ hn⟩
    · intro r hr
      cases base with
      | none => simp at hr
      | some bn =>
        cases hr
        exact ⟨bn, rfl, by
          rw [SchemaChildJson.refNames]
          exact List.mem_append_right _ (by simp)⟩
  | mixin ap =>
    rw [createClass_mixin_elim h]
    exact ⟨fun r hr => by simp at hr, fun r hr => by simp at hr⟩

/-- A reference whose name is in the table resolves. -/
theorem resolveRef_ok_of {cs : List ECClass} {r : ClassRef}
    (h : ∀ n, r = ClassRef.byName n → n ∈ cs.map ECClass.name) :
    ∃ r', resolveRef cs r = Except.ok r' := by
  cases r with
  | byObject i => exact ⟨ClassRef.byObject i, rfl⟩
  | byName n =>
    obtain ⟨i, hi⟩ := findClassIndex_isSome_of_mem (h n rfl)
    exact ⟨ClassRef.byObject i, by rw [resolveRef, hi]⟩

/-- A class all of whose referenced names are in the table resolves. -/
theorem resolveClass_ok_of {cs : List ECClass} {c : ECClass}
    (hm : ∀ r ∈ c.mixins, ∀ n, r = ClassRef.byName n → n ∈ cs.map ECClass.name)
    (hb : ∀ r, c.baseClass = some r → ∀ n, r = ClassRef.byName n → n ∈ cs.map ECClass.name) :
    ∃ c', resolveClass cs c = Except.ok c' := by
  obtain ⟨ms, hms⟩ := mapExcept_ok_of_forall fun r hr => resolveRef_ok_of (hm r hr)
  have hbs : ∃ b, resolveBase cs c.baseClass = Except.ok b := by
    cases hcb : c.baseClass with
    | none => exact ⟨Option.none, rfl⟩
    | some r =>
      obtain ⟨r', hr'⟩ := resolveRef_ok_of (hb r hcb)
      exact ⟨some r', by rw [resolveBase, hr']⟩
  obtain ⟨b, hbv⟩ := hbs
  exact ⟨{ c with mixins := ms, baseClass := b }, by rw [resolveClass, hms, hbv]⟩

/-- A well-formed schema JSON deserializes: every modifier parses, every
reference resolves — even a forward one, thanks to the two passes. -/
theorem fromObject_ok_of_wellFormed {json : SchemaJson}
    (hwf : json.wellFormed = true) :
    ∃ s, ECSchema.fromObject json = Except.ok s := by
  rw [SchemaJson.wellFormed, List.all_eq_true] at hwf
  have hmod : ∀ kv : String × SchemaChildJson, kv ∈ json.children →
      ∃ c, createClass kv.1 kv.2 = Except.ok c := by
    intro kv hkv
    have h := hwf kv hkv
    rw [Bool.and_eq_true] at h
    exact createClass_ok h.1
  obtain ⟨pass1, h1⟩ := mapExcept_ok_of_forall hmod
  have hnames := pass1_names h1
  have f1 := mapExcept_ok_forall2 (fun kv : String × SchemaChildJson => createClass kv.1 kv.2) h1
  have hres : ∀ c ∈ pass1, ∃ c', resolveClass pass1 c = Except.ok c' := by
    intro c hc
    obtain ⟨kv, hkv, hcr⟩ := forall2_mem_right f1 hc
    have hkeys := hwf kv hkv
    rw [Bool.and_eq_true] at hkeys
    have hrefs : ∀ n ∈ kv.2.refNames, n ∈ pass1.map ECClass.name := by
      intro n hn
      rw [hnames]
      have := List.all_eq_true.1 hkeys.2 n hn
      simpa using this
    obtain ⟨hrm, hrb⟩ := createClass_refs hcr
    refine resolveClass_ok_of ?_ ?_
    · intro r hr n hrn
      obtain ⟨n2, hn2, hn2mem⟩ := hrm r hr
      rw [hn2] at hrn
      cases hrn
      exact hrefs n hn2mem
    · intro r hr n hrn
      obtain ⟨n2, hn2, hn2mem⟩ := hrb r hr
      rw [hn2] at hrn
      cases hrn
      exact hrefs n hn2mem
  obtain ⟨resolved, h2⟩ := mapExcept_ok_of_forall hres
  refine ⟨{ name := json.name, version := json.version, classes := resolved }, ?_⟩
  rw [ECSchema.fromObject]
  simp [h1, h2]

/-! ## The claims -/

/-- C2: for every schema JSON whose children include a Mixin child and an
EntityClass child whose "mixin" attribute is that mixin's name, a successful
`ECSchema.fromObject` leaves the entity's mixin field resolved to an object
(a `ClassRef.byObject`, not the name string), and dereferencing it yields
identically the object `getClass` returns for the mixin's name. -/
theorem fromObject_resolves_mixin_to_getClass_object
    (json : SchemaJson) (s : ECSchema) (mk ck ap : String)
    (lab desc modif : Option String) (base : Option String)
    (hnodup : json.keys.Nodup)
    (hok : ECSchema.fromObject json = Except.ok s)
    (hm : (mk, SchemaChildJson.mixin ap) ∈ json.children)
    (hc : (ck, SchemaChildJson.entityClass lab desc modif (MixinAttr.single mk) base)
        ∈ json.children) :
    ∃ cls mixCls i,
      s.getClass ck = some cls ∧
      s.getClass mk = some mixCls ∧
      cls.mixins = [ClassRef.byObject i] ∧
      s.derefRef (ClassRef.byObject i) = some mixCls := by
  obtain ⟨pass1, h1, h2, _, _⟩ := fromObject_ok_elim hok
  obtain ⟨jm, hjm⟩ := List.mem_iff_get?.1 hm
  obtain ⟨jc, hjc⟩ := List.mem_iff_get?.1 hc
  obtain ⟨hfim, mixCls, hmcget, hmcname, hmcgc, hmcderef⟩ :=
    resolve_points_at_getClass hnodup h1 h2 hjm
  obtain ⟨raw, cls, hcr, hraw, hrc, hcls⟩ := fromObject_child_elim h1 h2 hjc
  obtain ⟨m, hmod, hroweq⟩ := createClass_entity_elim hcr
  obtain ⟨ms, b, hms, hb, hclseq⟩ := resolveClass_ok_elim hrc
  rw [hroweq] at hms
  obtain ⟨r, hrok, hmseq⟩ := mapExcept_singleton (resolveRef pass1) hms
  obtain ⟨i2, hfi2, hreq⟩ := resolveRef_byName_elim hrok
  rw [hfim] at hfi2
  cases hfi2
  have hn2 : (s.classes.map ECClass.name).Nodup := by
    rw [fromObject_classNames hok]
    exact hnodup
  have hget := getClass_get?_of_nodup hn2 hcls
  have hclsname : cls.name = ck := by
    rw [(resolveClass_fields hrc).1, createClass_name hcr]
  rw [hclsname] at hget
  refine ⟨cls, mixCls, jm, hget, hmcgc, ?_, hmcderef⟩
  rw [hclseq, hmseq, hreq]

/-- C2 witness: the "with mixin" deserialization test schema. -/
theorem fromObject_resolves_mixin_witness :
    mixinTestJson.keys.Nodup ∧
    ∃ s, ECSchema.fromObject mixinTestJson = Except.ok s ∧
      ∃ cls mixCls i,
        s.getClass "testClass" = some cls ∧
        s.getClass "testMixin" = some mixCls ∧
        cls.mixins = [ClassRef.byObject i] ∧
        s.derefRef (ClassRef.byObject i) = some mixCls := by
  refine ⟨by decide, ?_⟩
  obtain ⟨s, hok⟩ := @fromObject_ok_of_wellFormed mixinTestJson (by decide)
  exact ⟨s, hok, fromObject_resolves_mixin_to_getClass_object mixinTestJson s
    "testMixin" "testClass" "testClass" Option.none Option.none Option.none Option.none
    (by decide) hok (by decide) (by decide)⟩

/-- C6: deserializing a schema whose children include a fully defined
EntityClass child yields, under `getClass` at the child's key, a defined
entity class whose name is the key and whose label, description and modifier
equal the JSON attributes, the modifier string "None" mapping to
`ECClassModifier.none`. -/
theorem fromObject_fully_defined_attributes
    (json : SchemaJson) (s : ECSchema) (k : String) (lab desc : Option String)
    (mix : MixinAttr) (base : Option String)
    (hnodup : json.keys.Nodup)
    (hok : ECSchema.fromObject json = Except.ok s)
    (hc : (k, SchemaChildJson.entityClass lab desc (some "None") mix base) ∈ json.children) :
    ∃ cls, s.getClass k = some cls ∧ cls.name = k ∧
      cls.childType = SchemaChildType.entityClass ∧
      cls.label = lab ∧ cls.description = desc ∧
      cls.modifier = some ECClassModifier.none := by
  obtain ⟨pass1, h1, h2, _, _⟩ := fromObject_ok_elim hok
  obtain ⟨jc, hjc⟩ := List.mem_iff_get?.1 hc
  obtain ⟨raw, cls, hcr, hraw, hrc, hcls⟩ := fromObject_child_elim h1 h2 hjc
  obtain ⟨m, hmod, hroweq⟩ := createClass_entity_elim hcr
  have hmval : m = some ECClassModifier.none := by
    have hpm : parseModifierAttr (some "None") = Except.ok (some ECClassModifier.none) := rfl
    rw [hpm] at hmod
    cases hmod
    rfl
  obtain ⟨hn, hct, hlab, hdesc, hmodf, _⟩ := resolveClass_fields hrc
  have hn2 : (s.classes.map ECClass.name).Nodup := by
    rw [fromObject_classNames hok]
    exact hnodup
  have hget := getClass_get?_of_nodup hn2 hcls
  have hclsname : cls.name = k := by
    rw [hn, createClass_name hcr]
  rw [hclsname] at hget
  refine ⟨cls, hget, hclsname, ?_, ?_, ?_, ?_⟩
  · rw [hct, hroweq]
  · rw [hlab, hroweq]
  · rw [hdesc, hroweq]
  · rw [hmodf, hroweq]
    exact hmval

/-- C6 witness: the "succeed with fully defined" deserialization test. -/
theorem fromObject_fully_defined_witness :
    fullyDefinedTestJson.keys.Nodup ∧
    ∃ s, ECSchema.fromObject fullyDefinedTestJson = Except.ok s ∧
      ∃ cls, s.getClass "testEntityClass" = some cls ∧ cls.name = "testEntityClass" ∧
        cls.childType = SchemaChildType.entityClass ∧
        cls.label = some "Test Entity Class" ∧ cls.description = some "Used for testing" ∧
        cls.modifier = some ECClassModifier.none := by
  refine ⟨by decide, ?_⟩
  obtain ⟨s, hok⟩ := @fromObject_ok_of_wellFormed fullyDefinedTestJson (by decide)
  exact ⟨s, hok, fromObject_fully_defined_attributes fullyDefinedTestJson s "testEntityClass"
    (some "Test Entity Class") (some "Used for testing") MixinAttr.none Option.none
    (by decide) hok (by decide)⟩

/-- C5: every Mixin schema child carries its applies-to constraint into the
deserialized graph: the mixin `getClass` returns for its key retains the
JSON's appliesTo, and conversely every mixin object of the graph stems from a
Mixin child whose appliesTo it retains. -/
theorem fromObject_retains_appliesTo
    (json : SchemaJson) (s : ECSchema)
    (hnodup : json.keys.Nodup)
    (hok : ECSchema.fromObject json = Except.ok s) :
    (∀ k ap, (k, SchemaChildJson.mixin ap) ∈ json.children →
      ∃ mc, s.getClass k = some mc ∧ mc.childType = SchemaChildType.mixin ∧
        mc.appliesTo = some ap) ∧
    (∀ mc ∈ s.classes, mc.childType = SchemaChildType.mixin →
      ∃ k ap, (k, SchemaChildJson.mixin ap) ∈ json.children ∧ mc.name = k ∧
        mc.appliesTo = some ap) := by
  obtain ⟨pass1, h1, h2, _, _⟩ := fromObject_ok_elim hok
  constructor
  · intro k ap hm
    obtain ⟨jm, hjm⟩ := List.mem_iff_get?.1 hm
    obtain ⟨raw, mc, hcr, hraw, hrc, hmc⟩ := fromObject_child_elim h1 h2 hjm
    have hroweq := createClass_mixin_elim hcr
    obtain ⟨hn, hct, _, _, _, hap⟩ := resolveClass_fields hrc
    have hn2 : (s.classes.map ECClass.name).Nodup := by
      rw [fromObject_classNames hok]
      exact hnodup
    have hget := getClass_get?_of_nodup hn2 hmc
    have hmcname : mc.name = k := by
      rw [hn, hroweq]
    rw [hmcname] at hget
    exact ⟨mc, hget, by rw [hct, hroweq], by rw [hap, hroweq]⟩
  · intro mc hmcmem hmixin
    obtain ⟨j, hj⟩ := List.mem_iff_get?.1 hmcmem
    obtain ⟨raw, hrawj, hrc⟩ :=
      forall2_get?_right (mapExcept_ok_forall2 (resolveClass pass1) h2) hj
    obtain ⟨kv, hkvj, hcr⟩ :=
      forall2_get?_right
        (mapExcept_ok_forall2 (fun kv : String × SchemaChildJson => createClass kv.1 kv.2) h1)
        hrawj
    obtain ⟨hn, hct, _, _, _, hap⟩ := resolveClass_fields hrc
    have hcr2 : createClass kv.1 kv.2 = Except.ok raw := hcr
    cases hch : kv.2 with
    | entityClass lab desc modif mix base =>
      exfalso
      rw [hch] at hcr2
      obtain ⟨m, _, hroweq⟩ := createClass_entity_elim hcr2
      rw [hct, hroweq] at hmixin
      cases hmixin
    | mixin ap =>
      rw [hch] at hcr2
      have hroweq := createClass_mixin_elim hcr2
      refine ⟨kv.1, ap, ?_, ?_, ?_⟩
      · rw [← hch]
        exact List.get?_mem hkvj
      · rw [hn, hroweq]
      · rw [hap, hroweq]

/-- C5 witness: the "with mixin" test schema's mixin keeps appliesTo. -/
theorem fromObject_retains_appliesTo_witness :
    mixinTestJson.keys.Nodup ∧
    ∃ s, ECSchema.fromObject mixinTestJson = Except.ok s ∧
      ∃ mc, s.getClass "testMixin" = some mc ∧ mc.childType = SchemaChildType.mixin ∧
        mc.appliesTo = some "testClass" := by
  refine ⟨by decide, ?_⟩
  obtain ⟨s, hok⟩ := @fromObject_ok_of_wellFormed mixinTestJson (by decide)
  obtain ⟨h5a, _⟩ := fromObject_retains_appliesTo mixinTestJson s (by decide) hok
  exact ⟨s, hok, h5a "testMixin" "testClass" (by decide)⟩

/-- C3: base-class resolution — an EntityClass child naming another entity
child as its baseClass deserializes with its base resolved to the very object
`getClass` returns for that name, both classes retrievable by name. -/
theorem fromObject_resolves_baseClass
    (json : SchemaJson) (s : ECSchema) (bk ck : String)
    (bl bd bm : Option String) (bmix : MixinAttr) (bbase : Option String)
    (cl cd cm : Option String) (cmix : MixinAttr)
    (hnodup : json.keys.Nodup)
    (hok : ECSchema.fromObject json = Except.ok s)
    (hb : (bk, SchemaChildJson.entityClass bl bd bm bmix bbase) ∈ json.children)
    (hc : (ck, SchemaChildJson.entityClass cl cd cm cmix (some bk)) ∈ json.children) :
    ∃ cls bcls i,
      s.getClass ck = some cls ∧
      s.getClass bk = some bcls ∧
      cls.baseClass = some (ClassRef.byObject i) ∧
      s.derefRef (ClassRef.byObject i) = some bcls := by
  obtain ⟨pass1, h1, h2, _, _⟩ := fromObject_ok_elim hok
  obtain ⟨jb, hjb⟩ := List.mem_iff_get?.1 hb
  obtain ⟨jc, hjc⟩ := List.mem_iff_get?.1 hc
  obtain ⟨hfib, bcls, hbget, hbname, hbgc, hbderef⟩ :=
    resolve_points_at_getClass hnodup h1 h2 hjb
  obtain ⟨raw, cls, hcr, hraw, hrc, hcls⟩ := fromObject_child_elim h1 h2 hjc
  obtain ⟨m, hmod, hroweq⟩ := createClass_entity_elim hcr
  obtain ⟨ms, b, hms, hbs, hclseq⟩ := resolveClass_ok_elim hrc
  rw [hroweq] at hbs
  obtain ⟨r2, hrok, hbeq⟩ := resolveBase_some_elim hbs
  obtain ⟨i2, hfi2, hreq⟩ := resolveRef_byName_elim hrok
  rw [hfib] at hfi2
  cases hfi2
  have hn2 : (s.classes.map ECClass.name).Nodup := by
    rw [fromObject_classNames hok]
    exact hnodup
  have hget := getClass_get?_of_nodup hn2 hcls
  have hclsname : cls.name = ck := by
    rw [(resolveClass_fields hrc).1, createClass_name hcr]
  rw [hclsname] at hget
  refine ⟨cls, bcls, jb, hget, hbgc, ?_, hbderef⟩
  rw [hclseq, hbeq, hreq]

/-- C3 witness: the "with base class" deserialization test schema. -/
theorem fromObject_resolves_baseClass_witness :
    baseClassTestJson.keys.Nodup ∧
    ∃ s, ECSchema.fromObject baseClassTestJson = Except.ok s ∧
      ∃ cls bcls i,
        s.getClass "testClass" = some cls ∧
        s.getClass "baseClass" = some bcls ∧
        cls.baseClass = some (ClassRef.byObject i) ∧
        s.derefRef (ClassRef.byObject i) = some bcls := by
  refine ⟨by decide, ?_⟩
  obtain ⟨s, hok⟩ := @fromObject_ok_of_wellFormed baseClassTestJson (by decide)
  exact ⟨s, hok, fromObject_resolves_baseClass baseClassTestJson s "baseClass" "testClass"
    Option.none Option.none Option.none MixinAttr.none Option.none
    Option.none Option.none Option.none MixinAttr.none
    (by decide) hok (by decide) (by decide)⟩

/-- C1: deserialization is two-pass, so a schema child may refer by name to a
child that appears only later in the JSON's children — on a well-formed schema
deserialization still succeeds and resolves the forward reference to the later
child's object. -/
theorem fromObject_forward_reference_resolves
    (json : SchemaJson) (i j : Nat) (ck mk ap : String)
    (lab desc modif : Option String) (mix : MixinAttr) (base : Option String)
    (hnodup : json.keys.Nodup)
    (hwf : json.wellFormed = true)
    (hci : json.children.get? i =
      some (ck, SchemaChildJson.entityClass lab desc modif mix base))
    (hmk : mk ∈ mixinNames mix)
    (hmj : json.children.get? j = some (mk, SchemaChildJson.mixin ap))
    (_hij : i < j) :
    ∃ s, ECSchema.fromObject json = Except.ok s ∧
      ∃ cls, s.getClass ck = some cls ∧
        ClassRef.byObject j ∈ cls.mixins ∧
        ∃ mc, s.derefRef (ClassRef.byObject j) = some mc ∧ s.getClass mk = some mc := by
  obtain ⟨s, hok⟩ := fromObject_ok_of_wellFormed hwf
  obtain ⟨pass1, h1, h2, _, _⟩ := fromObject_ok_elim hok
  obtain ⟨hfi, mc, hmcget, hmcname, hmcgc, hmcderef⟩ :=
    resolve_points_at_getClass hnodup h1 h2 hmj
  obtain ⟨raw, cls, hcr, hraw, hrc, hcls⟩ := fromObject_child_elim h1 h2 hci
  obtain ⟨m, hmod, hroweq⟩ := createClass_entity_elim hcr
  obtain ⟨ms, b, hms, hbs, hclseq⟩ := resolveClass_ok_elim hrc
  rw [hroweq] at hms
  have hmemraw : ClassRef.byName mk ∈ (mixinNames mix).map ClassRef.byName :=
    List.mem_map_of_mem _ hmk
  obtain ⟨r, hrmem, hrok⟩ :=
    forall2_mem_left (mapExcept_ok_forall2 (resolveRef pass1) hms) hmemraw
  obtain ⟨i2, hfi2, hreq⟩ := resolveRef_byName_elim hrok
  rw [hfi] at hfi2
  cases hfi2
  have hn2 : (s.classes.map ECClass.name).Nodup := by
    rw [fromObject_classNames hok]
    exact hnodup
  have hget := getClass_get?_of_nodup hn2 hcls
  have hclsname : cls.name = ck := by
    rw [(resolveClass_fields hrc).1, createClass_name hcr]
  rw [hclsname] at hget
  refine ⟨s, hok, cls, hget, ?_, mc, hmcderef, hmcgc⟩
  rw [hclseq, ← hreq]
  exact hrmem

/-- C1 witness: the "with multiple mixins" test, whose entity class (child 1)
lists anotherMixin, defined only at child 2. -/
theorem fromObject_forward_reference_witness :
    multiMixinTestJson.keys.Nodup ∧
    multiMixinTestJson.wellFormed = true ∧
    (1 : Nat) < 2 ∧
    ∃ s, ECSchema.fromObject multiMixinTestJson = Except.ok s ∧
      ∃ cls, s.getClass "testClass" = some cls ∧
        ClassRef.byObject 2 ∈ cls.mixins ∧
        ∃ mc, s.derefRef (ClassRef.byObject 2) = some mc ∧
          s.getClass "anotherMixin" = some mc :=
  ⟨by decide, by decide, by decide,
   fromObject_forward_reference_resolves multiMixinTestJson 1 2 "testClass" "anotherMixin"
     "testClass" Option.none Option.none Option.none
     (MixinAttr.array ["testMixin", "anotherMixin"]) Option.none
     (by decide) (by decide) (by decide) (by decide) (by decide) (by decide)⟩

/-- C4: the mixin attribute may list an array of mixin names; an entity child
listing several mixins, each a Mixin child of the same schema, deserializes
with every listed mixin resolved and composed onto it, in order. -/
theorem fromObject_mixin_array_composes_all
    (json : SchemaJson) (ck : String) (lab desc modif : Option String)
    (ms : List String) (base : Option String)
    (hnodup : json.keys.Nodup)
    (hwf : json.wellFormed = true)
    (hc : (ck, SchemaChildJson.entityClass lab desc modif (MixinAttr.array ms) base)
        ∈ json.children)
    (hms : ∀ m ∈ ms, ∃ ap, (m, SchemaChildJson.mixin ap) ∈ json.children) :
    ∃ s cls, ECSchema.fromObject json = Except.ok s ∧
      s.getClass ck = some cls ∧
      List.Forall₂ (fun m r => ∃ i mc, r = ClassRef.byObject i ∧
        s.derefRef r = some mc ∧ s.getClass m = some mc ∧
        mc.childType = SchemaChildType.mixin ∧ mc.name = m) ms cls.mixins := by
  obtain ⟨s, hok⟩ := fromObject_ok_of_wellFormed hwf
  obtain ⟨pass1, h1, h2, _, _⟩ := fromObject_ok_elim hok
  obtain ⟨jc, hjc⟩ := List.mem_iff_get?.1 hc
  obtain ⟨raw, cls, hcr, hraw, hrc, hcls⟩ := fromObject_child_elim h1 h2 hjc
  obtain ⟨m0, hmod, hroweq⟩ := createClass_entity_elim hcr
  obtain ⟨msr, b, hmsr, hbs, hclseq⟩ := resolveClass_ok_elim hrc
  rw [hroweq] at hmsr
  have hmn : mixinNames (MixinAttr.array ms) = ms := rfl
  rw [hmn] at hmsr
  have f := mapExcept_ok_forall2 (resolveRef pass1) hmsr
  have f2 := List.forall₂_map_left_iff.1 f
  have hn2 : (s.classes.map ECClass.name).Nodup := by
    rw [fromObject_classNames hok]
    exact hnodup
  have f3 : List.Forall₂ (fun m r => ∃ i mc, r = ClassRef.byObject i ∧
      s.derefRef r = some mc ∧ s.getClass m = some mc ∧
      mc.childType = SchemaChildType.mixin ∧ mc.name = m) ms msr := by
    refine forall2_imp_mem f2 ?_
    intro m r hmmem hrok
    obtain ⟨ap, hmm⟩ := hms m hmmem
    obtain ⟨jm, hjm⟩ := List.mem_iff_get?.1 hmm
    obtain ⟨hfi, mc, hmcget, hmcname, hmcgc, hmcderef⟩ :=
      resolve_points_at_getClass hnodup h1 h2 hjm
    obtain ⟨i2, hfi2, hreq⟩ := resolveRef_byName_elim hrok
    rw [hfi] at hfi2
    cases hfi2
    obtain ⟨rawm, mcm, hcrm, hrawm, hrcm, hmcm⟩ := fromObject_child_elim h1 h2 hjm
    rw [hmcget] at hmcm
    cases hmcm
    have hmix : mc.childType = SchemaChildType.mixin := by
      rw [(resolveClass_fields hrcm).2.1, createClass_mixin_elim hcrm]
    refine ⟨jm, mc, hreq, ?_, hmcgc, hmix, hmcname⟩
    rw [hreq]
    exact hmcderef
  refine ⟨s, cls, hok, ?_, ?_⟩
  · have hget := getClass_get?_of_nodup hn2 hcls
    have hclsname : cls.name = ck := by
      rw [(resolveClass_fields hrc).1, createClass_name hcr]
    rw [hclsname] at hget
    exact hget
  · rw [hclseq]
    exact f3

/-- C4 witness: the "with multiple mixins" test composes both mixins. -/
theorem fromObject_mixin_array_witness :
    multiMixinTestJson.keys.Nodup ∧
    multiMixinTestJson.wellFormed = true ∧
    ∃ s cls, ECSchema.fromObject multiMixinTestJson = Except.ok s ∧
      s.getClass "testClass" = some cls ∧
      List.Forall₂ (fun m r => ∃ i mc, r = ClassRef.byObject i ∧
        s.derefRef r = some mc ∧ s.getClass m = some mc ∧
        mc.childType = SchemaChildType.mixin ∧ mc.name = m)
        ["testMixin", "anotherMixin"] cls.mixins :=
  ⟨by decide, by decide,
   fromObject_mixin_array_composes_all multiMixinTestJson "testClass"
     Option.none Option.none Option.none ["testMixin", "anotherMixin"] Option.none
     (by decide) (by decide) (by decide)
     (by
       intro m hm
       rcases List.mem_cons.1 hm with rfl | hm2
       · exact ⟨"testClass", by decide⟩
       · rcases List.mem_cons.1 hm2 with rfl | hm3
         · exact ⟨"testClass", by decide⟩
         · exact absurd hm3 (List.not_mem_nil m))⟩

/-- Every operation of every interface of an assigned configuration carries
the test-token policy. -/
theorem assignTokenPolicies_ops (cfg : RpcConfiguration) :
    ∀ iface ∈ (assignTokenPolicies cfg).interfaces, ∀ op ∈ iface.operations,
      op.policyToken = some fun _request => testIModelToken := by
  intro iface hif op hop
  rw [assignTokenPolicies] at hif
  obtain ⟨i0, _, rfl⟩ := List.mem_map.1 hif
  obtain ⟨op0, _, rfl⟩ := List.mem_map.1 hop
  rfl

/-- C7: the frontend bootstrap registers exactly IModelTileRpcInterface and
IModelReadRpcInterface, initializing the client over the Electron transport
when isElectron holds and the Bentley Cloud transport otherwise, and every
RPC operation of every registered interface is assigned a token policy that
supplies an IModelToken for each request. -/
theorem frontend_rpc_bootstrap_registers_and_tokens
    (isElectron : Bool) (opsOf : String → List String) :
    (frontendRpcBootstrap isElectron opsOf).transport =
      (if isElectron then RpcTransport.electron else RpcTransport.bentleyCloud) ∧
    (frontendRpcBootstrap isElectron opsOf).interfaces.map RpcInterface.interfaceName =
      ["IModelTileRpcInterface", "IModelReadRpcInterface"] ∧
    ∀ iface ∈ (frontendRpcBootstrap isElectron opsOf).interfaces,
      ∀ op ∈ iface.operations,
        ∃ f, op.policyToken = some f ∧ ∀ req, f req = testIModelToken := by
  refine ⟨?_, ?_, ?_⟩
  · cases isElectron <;> rfl
  · cases isElectron <;>
      simp [frontendRpcBootstrap, assignTokenPolicies,
        ElectronRpcManager.initializeClient, BentleyCloudRpcManager.initializeClient,
        freshInterface, rpcInterfaceNames]
  · intro iface hif op hop
    exact ⟨fun _request => testIModelToken,
      assignTokenPolicies_ops _ iface hif op hop, fun req => rfl⟩

/-! ## Facts about `startupFill` -/

/-- Filling always yields a view manager. -/
theorem startupFill_viewManager_isSome (w : Bool) (sup : Unit → Option RenderSystem)
    (s : IModelAppState) : (IModelApp.startupFill w sup s).viewManager.isSome = true := by
  cases hv : s.viewManager <;> simp [IModelApp.startupFill, hv]

/-- Filling always yields a notification manager. -/
theorem startupFill_notifications_isSome (w : Bool) (sup : Unit → Option RenderSystem)
    (s : IModelAppState) : (IModelApp.startupFill w sup s).notifications.isSome = true := by
  cases hv : s.notifications <;> simp [IModelApp.startupFill, hv]

/-- Filling always yields a tool admin. -/
theorem startupFill_toolAdmin_isSome (w : Bool) (sup : Unit → Option RenderSystem)
    (s : IModelAppState) : (IModelApp.startupFill w sup s).toolAdmin.isSome = true := by
  cases hv : s.toolAdmin <;> simp [IModelApp.startupFill, hv]

/-- Filling always yields an AccuDraw. -/
theorem startupFill_accuDraw_isSome (w : Bool) (sup : Unit → Option RenderSystem)
    (s : IModelAppState) : (IModelApp.startupFill w sup s).accuDraw.isSome = true := by
  cases hv : s.accuDraw <;> simp [IModelApp.startupFill, hv]

/-- Filling always yields an AccuSnap. -/
theorem startupFill_accuSnap_isSome (w : Bool) (sup : Unit → Option RenderSystem)
    (s : IModelAppState) : (IModelApp.startupFill w sup s).accuSnap.isSome = true := by
  cases hv : s.accuSnap <;> simp [IModelApp.startupFill, hv]

/-- Filling always yields a locate manager. -/
theorem startupFill_locateManager_isSome (w : Bool) (sup : Unit → Option RenderSystem)
    (s : IModelAppState) : (IModelApp.startupFill w sup s).locateManager.isSome = true := by
  cases hv : s.locateManager <;> simp [IModelApp.startupFill, hv]

/-- Filling always yields a tentative point. -/
theorem startupFill_tentativePoint_isSome (w : Bool) (sup : Unit → Option RenderSystem)
    (s : IModelAppState) : (IModelApp.startupFill w sup s).tentativePoint.isSome = true := by
  cases hv : s.tentativePoint <;> simp [IModelApp.startupFill, hv]

/-- A view manager already present is kept. -/
theorem startupFill_viewManager_keep (w : Bool) (sup : Unit → Option RenderSystem)
    (s : IModelAppState) (m : ViewManager) (hm : s.viewManager = some m) :
    (IModelApp.startupFill w sup s).viewManager = some m := by
  simp [IModelApp.startupFill, hm]

/-- A notification manager already present is kept. -/
theorem startupFill_notifications_keep (w : Bool) (sup : Unit → Option RenderSystem)
    (s : IModelAppState) (m : NotificationManager) (hm : s.notifications = some m) :
    (IModelApp.startupFill w sup s).notifications = some m := by
  simp [IModelApp.startupFill, hm]

/-- A tool admin already present is kept. -/
theorem startupFill_toolAdmin_keep (w : Bool) (sup : Unit → Option RenderSystem)
    (s : IModelAppState) (m : ToolAdmin) (hm : s.toolAdmin = some m) :
    (IModelApp.startupFill w sup s).toolAdmin = some m := by
  simp [IModelApp.startupFill, hm]

/-- An AccuDraw already present is kept. -/
theorem startupFill_accuDraw_keep (w : Bool) (sup : Unit → Option RenderSystem)
    (s : IModelAppState) (m : AccuDraw) (hm : s.accuDraw = some m) :
    (IModelApp.startupFill w sup s).accuDraw = some m := by
  simp [IModelApp.startupFill, hm]

/-- An AccuSnap already present is kept. -/
theorem startupFill_accuSnap_keep (w : Bool) (sup : Unit → Option RenderSystem)
    (s : IModelAppState) (m : AccuSnap) (hm : s.accuSnap = some m) :
    (IModelApp.startupFill w sup s).accuSnap = some m := by
  simp [IModelApp.startupFill, hm]

/-- A locate manager already present is kept. -/
theorem startupFill_locateManager_keep (w : Bool) (sup : Unit → Option RenderSystem)
    (s : IModelAppState) (m : ElementLocateManager) (hm : s.locateManager = some m) :
    (IModelApp.startupFill w sup s).locateManager = some m := by
  simp [IModelApp.startupFill, hm]

/-- A tentative point already present is kept. -/
theorem startupFill_tentativePoint_keep (w : Bool) (sup : Unit → Option RenderSystem)
    (s : IModelAppState) (m : TentativePoint) (hm : s.tentativePoint = some m) :
    (IModelApp.startupFill w sup s).tentativePoint = some m := by
  simp [IModelApp.startupFill, hm]

/-- A render system already present is kept, never overwritten. -/
theorem startupFill_renderSystem_keep (w : Bool) (sup : Unit → Option RenderSystem)
    (s : IModelAppState) (r : RenderSystem) (hm : s.renderSystem = some r) :
    (IModelApp.startupFill w sup s).renderSystem = some r := by
  simp [IModelApp.startupFill, hm]

/-- With display capabilities requested and no render system present, the
supplied one is installed. -/
theorem startupFill_renderSystem_supply (sup : Unit → Option RenderSystem)
    (s : IModelAppState) (hm : s.renderSystem = Option.none) :
    (IModelApp.startupFill true sup s).renderSystem = sup () := by
  simp [IModelApp.startupFill, hm]

/-- Without display capabilities no render system is installed. -/
theorem startupFill_renderSystem_skip (sup : Unit → Option RenderSystem)
    (s : IModelAppState) (hm : s.renderSystem = Option.none) :
    (IModelApp.startupFill false sup s).renderSystem = Option.none := by
  simp [IModelApp.startupFill, hm]

/-- C8: `startup` succeeds at most once per session — called while already
initialized it throws an IModelError with status AlreadyLoaded and leaves the
static state unchanged; called while not initialized it returns with the
initialized flag set, the deployment environment recorded, every manager
defined, and any manager the subclass `onStartup` hook assigned left in place
rather than overwritten.  The hypothesis states the documented `onStartup`
contract: the hook overrides managers and registers tools but does not touch
the lifecycle statics. -/
theorem imodelApp_startup_once
    (onStartup : IModelAppState → IModelAppState)
    (supplyRenderSystem : Unit → Option RenderSystem)
    (st : IModelAppState) (env : String) (wantDisplay : Bool)
    (honStartup : ∀ s0 : IModelAppState, (onStartup s0).initialized = s0.initialized ∧
      (onStartup s0).deploymentEnv = s0.deploymentEnv) :
    (st.initialized = true →
      IModelApp.startup onStartup supplyRenderSystem st env wantDisplay =
        Except.error { status := ErrStatus.alreadyLoaded,
                       message := "startup may only be called once" } ∧
      IModelApp.startupState onStartup supplyRenderSystem st env wantDisplay = st) ∧
    (st.initialized = false →
      ∃ s, IModelApp.startup onStartup supplyRenderSystem st env wantDisplay =
          Except.ok s ∧
        s.initialized = true ∧ s.deploymentEnv = env ∧
        s.viewManager.isSome = true ∧ s.notifications.isSome = true ∧
        s.toolAdmin.isSome = true ∧ s.accuDraw.isSome = true ∧
        s.accuSnap.isSome = true ∧ s.locateManager.isSome = true ∧
        s.tentativePoint.isSome = true ∧
        (∀ m, (onStartup (IModelApp.startupPre st env)).viewManager = some m →
          s.viewManager = some m) ∧
        (∀ m, (onStartup (IModelApp.startupPre st env)).notifications = some m →
          s.notifications = some m) ∧
        (∀ m, (onStartup (IModelApp.startupPre st env)).toolAdmin = some m →
          s.toolAdmin = some m) ∧
        (∀ m, (onStartup (IModelApp.startupPre st env)).accuDraw = some m →
          s.accuDraw = some m) ∧
        (∀ m, (onStartup (IModelApp.startupPre st env)).accuSnap = some m →
          s.accuSnap = some m) ∧
        (∀ m, (onStartup (IModelApp.startupPre st env)).locateManager = some m →
          s.locateManager = some m) ∧
        (∀ m, (onStartup (IModelApp.startupPre st env)).tentativePoint = some m →
          s.tentativePoint = some m) ∧
        (∀ r, (onStartup (IModelApp.startupPre st env)).renderSystem = some r →
          s.renderSystem = some r)) := by
  constructor
  · intro hinit
    constructor
    · rw [IModelApp.startup, if_pos hinit]
    · rw [IModelApp.startupState, IModelApp.startup, if_pos hinit]
  · intro hinit
    refine ⟨IModelApp.startupFill wantDisplay supplyRenderSystem
        (onStartup (IModelApp.startupPre st env)),
      by rw [IModelApp.startup, if_neg (by simp [hinit])],
      ?_, ?_,
      startupFill_viewManager_isSome _ _ _,
      startupFill_notifications_isSome _ _ _,
      startupFill_toolAdmin_isSome _ _ _,
      startupFill_accuDraw_isSome _ _ _,
      startupFill_accuSnap_isSome _ _ _,
      startupFill_locateManager_isSome _ _ _,
      startupFill_tentativePoint_isSome _ _ _,
      fun m hm => startupFill_viewManager_keep _ _ _ m hm,
      fun m hm => startupFill_notifications_keep _ _ _ m hm,
      fun m hm => startupFill_toolAdmin_keep _ _ _ m hm,
      fun m hm => startupFill_accuDraw_keep _ _ _ m hm,
      fun m hm => startupFill_accuSnap_keep _ _ _ m hm,
      fun m hm => startupFill_locateManager_keep _ _ _ m hm,
      fun m hm => startupFill_tentativePoint_keep _ _ _ m hm,
      fun r hr => startupFill_renderSystem_keep _ _ _ r hr⟩
    · calc (IModelApp.startupFill wantDisplay supplyRenderSystem
            (onStartup (IModelApp.startupPre st env))).initialized
          = (onStartup (IModelApp.startupPre st env)).initialized := rfl
        _ = (IModelApp.startupPre st env).initialized :=
          (honStartup (IModelApp.startupPre st env)).1
        _ = true := rfl
    · calc (IModelApp.startupFill wantDisplay supplyRenderSystem
            (onStartup (IModelApp.startupPre st env))).deploymentEnv
          = (onStartup (IModelApp.startupPre st env)).deploymentEnv := rfl
        _ = (IModelApp.startupPre st env).deploymentEnv :=
          (honStartup (IModelApp.startupPre st env)).2
        _ = env := rfl

/-- C8 witness: `SampleAppIModelApp.startup()` on the fresh state keeps the
hook's AccuSnap. -/
theorem imodelApp_startup_once_witness :
    ∃ s, IModelApp.startup sampleAppOnStartup (fun _ => some { tag := "WebGLSystem" })
        {} "QA" false = Except.ok s ∧
      s.initialized = true ∧ s.accuSnap = some { tag := "SampleAppAccuSnap" } := by
  obtain ⟨s, hok, hinit, henv, hvm, hnot, hta, had, has, hlm, htp,
      kvm, knot, kta, kad, kas, klm, ktp, krs⟩ :=
    (imodelApp_startup_once sampleAppOnStartup (fun _ => some { tag := "WebGLSystem" })
      {} "QA" false (fun s0 => ⟨rfl, rfl⟩)).2 rfl
  exact ⟨s, hok, hinit, kas { tag := "SampleAppAccuSnap" } rfl⟩

/-- C9: the `renderSystem` getter throws exactly when `hasRenderSystem` is
false; after startup with display capabilities requested and a successful
`supplyRenderSystem` it returns that system without throwing; after startup
without display capabilities (and no render system supplied by the hook), and
likewise after `shutdown`, `hasRenderSystem` is false and the getter throws. -/
theorem imodelApp_renderSystem_throws_iff_absent
    (st : IModelAppState) (onStartup : IModelAppState → IModelAppState)
    (supplyRenderSystem : Unit → Option RenderSystem) (env : String) (r : RenderSystem) :
    (IModelApp.renderSystemGet st =
        Except.error { status := ErrStatus.error,
                       message := "Display capabilities unavailable" } ↔
      IModelApp.hasRenderSystem st = false) ∧
    (st.initialized = false →
      (onStartup (IModelApp.startupPre st env)).renderSystem = Option.none →
      supplyRenderSystem () = some r →
      ∀ s, IModelApp.startup onStartup supplyRenderSystem st env true = Except.ok s →
        IModelApp.hasRenderSystem s = true ∧
        IModelApp.renderSystemGet s = Except.ok r) ∧
    (st.initialized = false →
      (onStartup (IModelApp.startupPre st env)).renderSystem = Option.none →
      ∀ s, IModelApp.startup onStartup supplyRenderSystem st env false = Except.ok s →
        IModelApp.hasRenderSystem s = false ∧
        IModelApp.renderSystemGet s =
          Except.error { status := ErrStatus.error,
                         message := "Display capabilities unavailable" }) ∧
    (IModelApp.hasRenderSystem (IModelApp.shutdown st) = false ∧
      IModelApp.renderSystemGet (IModelApp.shutdown st) =
        Except.error { status := ErrStatus.error,
                       message := "Display capabilities unavailable" }) := by
  refine ⟨?_, ?_, ?_, ?_⟩
  · cases hr : st.renderSystem <;>
      simp [IModelApp.renderSystemGet, IModelApp.hasRenderSystem, hr]
  · intro h0 hmid hsup s hok
    rw [IModelApp.startup, if_neg (by simp [h0])] at hok
    cases hok
    have hrs := startupFill_renderSystem_supply supplyRenderSystem
      (onStartup (IModelApp.startupPre st env)) hmid
    rw [hsup] at hrs
    constructor
    · rw [IModelApp.hasRenderSystem, hrs]
      rfl
    · simp [IModelApp.renderSystemGet, hrs]
  · intro h0 hmid s hok
    rw [IModelApp.startup, if_neg (by simp [h0])] at hok
    cases hok
    have hrs := startupFill_renderSystem_skip supplyRenderSystem
      (onStartup (IModelApp.startupPre st env)) hmid
    constructor
    · rw [IModelApp.hasRenderSystem, hrs]
      rfl
    · simp [IModelApp.renderSystemGet, hrs]
  · constructor
    · rfl
    · rfl

/-- C10: `SampleAppReducer` frames its updates: BACKSTAGESHOW and
BACKSTAGEHIDE set backstageVisible true and false leaving the connection
unchanged, SETIMODELCONNECTION sets the connection leaving backstageVisible
unchanged, and any other action type returns the input state itself. -/
theorem sampleAppReducer_frame
    (state : SampleAppState) (p : Option IModelConnection) :
    ((SampleAppReducer state
        { actionType := "SampleApp:BACKSTAGESHOW", payload := p }).backstageVisible =
          some true ∧
      (SampleAppReducer state
        { actionType := "SampleApp:BACKSTAGESHOW", payload := p }).currentIModelConnection =
          state.currentIModelConnection) ∧
    ((SampleAppReducer state
        { actionType := "SampleApp:BACKSTAGEHIDE", payload := p }).backstageVisible =
          some false ∧
      (SampleAppReducer state
        { actionType := "SampleApp:BACKSTAGEHIDE", payload := p }).currentIModelConnection =
          state.currentIModelConnection) ∧
    ((SampleAppReducer state
        { actionType := "SampleApp:SETIMODELCONNECTION", payload := p }).currentIModelConnection =
          p ∧
      (SampleAppReducer state
        { actionType := "SampleApp:SETIMODELCONNECTION", payload := p }).backstageVisible =
          state.backstageVisible) ∧
    (∀ t, t ≠ "SampleApp:BACKSTAGESHOW" → t ≠ "SampleApp:BACKSTAGEHIDE" →
      t ≠ "SampleApp:SETIMODELCONNECTION" →
      SampleAppReducer state { actionType := t, payload := p } = state) := by
  refine ⟨⟨?_, ?_⟩, ⟨?_, ?_⟩, ⟨?_, ?_⟩, ?_⟩
  · simp [SampleAppReducer]
  · simp [SampleAppReducer]
  · simp [SampleAppReducer]
  · simp [SampleAppReducer]
  · simp [SampleAppReducer]
  · simp [SampleAppReducer]
  · intro t h1 h2 h3
    simp [SampleAppReducer, h1, h2, h3]
